import Mathlib

/-!
Verification of the cryptographic core of aether-drive (src-tauri).

Shallow embedding conventions:
- a Rust `u8` is a `Nat` (kept below 256 by construction where it matters);
- a byte buffer (`Vec<u8>`, `&[u8]`, `[u8; N]`) is a `List Nat`;
- SHA-256, HMAC-SHA256 and HKDF-SHA256 (the `sha2` / `hkdf` crates) are
  implemented concretely so that derivations can be evaluated in the kernel;
- the XChaCha20-Poly1305 AEAD (external `chacha20poly1305` crate) is modelled
  symbolically: a sealed ciphertext records the key, nonce, AAD and message,
  and opening succeeds exactly when key, nonce and AAD match (ideal
  authenticity, which is the contract the code relies on);
- randomness drawn with `OsRng` becomes an explicit argument;
- the filesystem and the SQLCipher store become explicit state values.
-/

set_option maxRecDepth 100000

namespace AetherDrive

/-- A byte buffer: `Vec<u8>` / `&[u8]`. -/
abbrev Bytes := List Nat

/-- Truncation to a 32-bit word. -/
def w32 (x : Nat) : Nat := x % 4294967296

/-- 32-bit right rotation. -/
def rotr (n x : Nat) : Nat :=
  w32 (Nat.lor (Nat.shiftRight x n) (Nat.shiftLeft x (32 - n)))

/-- Logical right shift. -/
def shr (n x : Nat) : Nat := Nat.shiftRight x n

/-- Three-way xor. -/
def xor3 (a b c : Nat) : Nat := Nat.xor (Nat.xor a b) c

/-- SHA-256 Σ0. -/
def bSig0 (x : Nat) : Nat := xor3 (rotr 2 x) (rotr 13 x) (rotr 22 x)

/-- SHA-256 Σ1. -/
def bSig1 (x : Nat) : Nat := xor3 (rotr 6 x) (rotr 11 x) (rotr 25 x)

/-- SHA-256 σ0. -/
def sSig0 (x : Nat) : Nat := xor3 (rotr 7 x) (rotr 18 x) (shr 3 x)

/-- SHA-256 σ1. -/
def sSig1 (x : Nat) : Nat := xor3 (rotr 17 x) (rotr 19 x) (shr 10 x)

/-- SHA-256 Ch(x,y,z). -/
def ch (x y z : Nat) : Nat :=
  Nat.xor (Nat.land x y) (Nat.land (Nat.xor x 4294967295) z)

/-- SHA-256 Maj(x,y,z). -/
def maj (x y z : Nat) : Nat :=
  xor3 (Nat.land x y) (Nat.land x z) (Nat.land y z)

/-- The 64 SHA-256 round constants (FIPS 180-4), in decimal. -/
def sha256K : List Nat :=
  [1116352408, 1899447441, 3049323471, 3921009573, 961987163,
   1508970993, 2453635748, 2870763221, 3624381080, 310598401,
   607225278, 1426881987, 1925078388, 2162078206, 2614888103,
   3248222580, 3835390401, 4022224774, 264347078, 604807628,
   770255983, 1249150122, 1555081692, 1996064986, 2554220882,
   2821834349, 2952996808, 3210313671, 3336571891, 3584528711,
   113926993, 338241895, 666307205, 773529912, 1294757372,
   1396182291, 1695183700, 1986661051, 2177026350, 2456956037,
   2730485921, 2820302411, 3259730800, 3345764771, 3516065817,
   3600352804, 4094571909, 275423344, 430227734, 506948616,
   659060556, 883997877, 958139571, 1322822218, 1537002063,
   1747873779, 1955562222, 2024104815, 2227730452, 2361852424,
   2428436474, 2756734187, 3204031479, 3329325298]

/-- The SHA-256 initial hash value (FIPS 180-4), in decimal. -/
def sha256H0 : List Nat :=
  [1779033703, 3144134277, 1013904242, 2773480762,
   1359893119, 2600822924, 528734635, 1541459225]

/-- One message-schedule extension step, on the reversed word list
(head = most recent word). -/
def schedStep (acc : List Nat) : List Nat :=
  w32 (sSig1 (acc.getD 1 0) + acc.getD 6 0 + sSig0 (acc.getD 14 0) +
       acc.getD 15 0) :: acc

/-- Extend the 16 block words to the 64 schedule words. -/
def extendSchedule (first16 : List Nat) : List Nat :=
  (Nat.rec first16.reverse (fun _ acc => schedStep acc) 48 : List Nat).reverse

/-- A SHA-256 working state (a..h). -/
structure Hash8 where
  a : Nat
  b : Nat
  c : Nat
  d : Nat
  e : Nat
  f : Nat
  g : Nat
  h : Nat
deriving DecidableEq, Repr

/-- One SHA-256 compression round. -/
def sha256Round (st : Hash8) (kw : Nat × Nat) : Hash8 :=
  let t1 := w32 (st.h + bSig1 st.e + ch st.e st.f st.g + kw.1 + kw.2)
  let t2 := w32 (bSig0 st.a + maj st.a st.b st.c)
  ⟨w32 (t1 + t2), st.a, st.b, st.c, w32 (st.d + t1), st.e, st.f, st.g⟩

/-- Big-endian 32-bit words from bytes (4 at a time). -/
def bytesToWords : List Nat → List Nat
  | b0 :: b1 :: b2 :: b3 :: rest =>
      (((b0 * 256 + b1) * 256 + b2) * 256 + b3) :: bytesToWords rest
  | _ => []

/-- A 32-bit word as 4 big-endian bytes. -/
def wordToBytes (n : Nat) : Bytes :=
  [n / 16777216 % 256, n / 65536 % 256, n / 256 % 256, n % 256]

/-- A number as 8 big-endian bytes (the SHA-256 length field). -/
def be64 (n : Nat) : Bytes :=
  [n / 2 ^ 56 % 256, n / 2 ^ 48 % 256, n / 2 ^ 40 % 256, n / 2 ^ 32 % 256,
   n / 2 ^ 24 % 256, n / 2 ^ 16 % 256, n / 2 ^ 8 % 256, n % 256]

/-- Compress one 64-byte block into the running hash (8 words). -/
def sha256Block (hv : List Nat) (block : List Nat) : List Nat :=
  let ws := extendSchedule (bytesToWords block)
  let init : Hash8 :=
    ⟨hv.getD 0 0, hv.getD 1 0, hv.getD 2 0, hv.getD 3 0,
     hv.getD 4 0, hv.getD 5 0, hv.getD 6 0, hv.getD 7 0⟩
  let st := (sha256K.zip ws).foldl sha256Round init
  [w32 (hv.getD 0 0 + st.a), w32 (hv.getD 1 0 + st.b),
   w32 (hv.getD 2 0 + st.c), w32 (hv.getD 3 0 + st.d),
   w32 (hv.getD 4 0 + st.e), w32 (hv.getD 5 0 + st.f),
   w32 (hv.getD 6 0 + st.g), w32 (hv.getD 7 0 + st.h)]

/-- Split a byte list into 64-byte chunks (structural recursion on a fuel
argument so the kernel can evaluate it). -/
def chunks64Aux : Nat → List Nat → List (List Nat)
  | 0, _ => []
  | _, [] => []
  | fuel + 1, a :: l => ((a :: l).take 64) :: chunks64Aux fuel ((a :: l).drop 64)

/-- Split a byte list into 64-byte chunks. -/
def chunks64 (l : List Nat) : List (List Nat) := chunks64Aux l.length l

/-- SHA-256 padding of a message. -/
def sha256Pad (msg : Bytes) : Bytes :=
  let l := msg.length
  let k := (64 - (l + 9) % 64) % 64
  msg ++ 128 :: List.replicate k 0 ++ be64 (8 * l)

/-- SHA-256 of a byte string, as 32 bytes. Model of the `sha2` crate. -/
def sha256 (msg : Bytes) : Bytes :=
  ((chunks64 (sha256Pad msg)).foldl sha256Block sha256H0).flatMap wordToBytes

/-- HMAC-SHA256 (RFC 2104), as used by the `hkdf` crate. -/
def hmacSha256 (key msg : Bytes) : Bytes :=
  let k0 := if 64 < key.length then sha256 key else key
  let kb := k0 ++ List.replicate (64 - k0.length) 0
  sha256 ((kb.map (fun b => Nat.xor b 92)) ++
          sha256 ((kb.map (fun b => Nat.xor b 54)) ++ msg))

/-- HKDF-SHA256 extract (RFC 5869): `Hkdf::new(salt, ikm)`. A `None` salt is
a hash-length string of zeros. -/
def hkdfExtract (salt : Option Bytes) (ikm : Bytes) : Bytes :=
  hmacSha256 (salt.getD (List.replicate 32 0)) ikm

/-- HKDF-SHA256 expand to 32 bytes (one output block): `hkdf.expand(info, 32)`.
A 32-byte output never exceeds 255 hash lengths, so the crate's only error
case cannot fire; the `Ok` payload is modelled directly. -/
def hkdfExpand32 (prk info : Bytes) : Bytes := hmacSha256 prk (info ++ [1])

/-- HKDF-SHA256 with a 32-byte output. -/
def hkdfSha256_32 (salt : Option Bytes) (ikm info : Bytes) : Bytes :=
  hkdfExpand32 (hkdfExtract salt ikm) info

/-- Test vector: SHA-256 of the empty string. -/
theorem sha256_empty_vector :
    sha256 [] =
      [227, 176, 196, 66, 152, 252, 28, 20, 154, 251, 244, 200, 153,
       111, 185, 36, 39, 174, 65, 228, 100, 155, 147, 76, 164, 149,
       153, 27, 120, 82, 184, 85] := by decide

/-- Test vector: SHA-256 of "abc". -/
theorem sha256_abc_vector :
    sha256 [97, 98, 99] =
      [186, 120, 22, 191, 143, 1, 207, 234, 65, 65, 64, 222, 93, 174,
       34, 35, 176, 3, 97, 163, 150, 23, 122, 156, 180, 16, 255, 97,
       242, 0, 21, 173] := by decide

/-- Test vector: HMAC-SHA256, RFC 4231 test case 1
(key = 20 bytes of 0x0b, data = "Hi There"). -/
theorem hmacSha256_rfc4231_tc1 :
    hmacSha256 (List.replicate 20 11) [72, 105, 32, 84, 104, 101, 114, 101] =
      [176, 52, 76, 97, 216, 219, 56, 83, 92, 168, 175, 206, 175, 11,
       241, 43, 136, 29, 194, 0, 201, 131, 61, 167, 38, 233, 55, 108,
       46, 50, 207, 247] := by decide

/-- Test vector: HKDF-SHA256, RFC 5869 test case 1, first 32 output bytes
(ikm = 22 bytes of 0x0b, salt = 0x00..0x0c, info = 0xf0..0xf9). -/
theorem hkdfSha256_rfc5869_tc1 :
    hkdfSha256_32 (some [0, 1, 2, 3, 4, 5, 6, 7, 8, 9, 10, 11, 12])
      (List.replicate 22 11)
      [240, 241, 242, 243, 244, 245, 246, 247, 248, 249] =
      [60, 178, 95, 37, 250, 172, 213, 122, 144, 67, 79, 100, 208, 54,
       47, 42, 45, 45, 10, 144, 207, 26, 90, 76, 93, 176, 45, 86, 236,
       196, 197, 191] := by decide

/-! ## Crypto core (src-tauri/src/crypto/mod.rs) -/

/-- Errors of the crypto module (`CryptoError` in crypto/mod.rs, payloads of
the error messages dropped). -/
inductive CryptoError
  | InvalidPassword
  | HkdfLength
  | Aead
deriving DecidableEq, Repr

/-- The ASCII bytes of "aether-drive:file-key" — `FILE_KEY_INFO` in
crypto/mod.rs line 18. Note: no ":v1" suffix. -/
def FILE_KEY_INFO : Bytes :=
  [97, 101, 116, 104, 101, 114, 45, 100, 114, 105, 118, 101, 58,
   102, 105, 108, 101, 45, 107, 101, 121]

/-- The ASCII bytes of "aether-drive:file-key:v1" — `FILE_KEY_INFO` in
storage/mod.rs line 22 (with the ":v1" suffix). -/
def FILE_KEY_INFO_V1 : Bytes :=
  [97, 101, 116, 104, 101, 114, 45, 100, 114, 105, 118, 101, 58,
   102, 105, 108, 101, 45, 107, 101, 121, 58, 118, 49]

/-- `CryptoCore::derive_file_key` (crypto/mod.rs lines 157-167):
HKDF-SHA256 with the per-file salt, the master key as ikm, and the
crypto-module info constant. The `Ok` payload is modelled directly (the
only error case, a wrong HKDF output length, cannot fire for 32 bytes). -/
def derive_file_key (master_key : Bytes) (file_salt : Bytes) : Bytes :=
  hkdfSha256_32 (some file_salt) master_key FILE_KEY_INFO

/-! ## Aether envelope (src-tauri/src/storage/mod.rs, aether_format.rs) -/

/-- The ASCII bytes of "AETH" (`MAGIC_NUMBER`). -/
def MAGIC_NUMBER : Bytes := [65, 69, 84, 72]

/-- Format version (`VERSION = 0x01`). -/
def VERSION : Nat := 1

/-- Cipher identifier (`CIPHER_ID = 0x02`). -/
def CIPHER_ID : Nat := 2

/-- The ASCII bytes of "aether-drive:aad:v1:" (the AAD domain tag of
`build_aad`). -/
def AAD_TAG : Bytes :=
  [97, 101, 116, 104, 101, 114, 45, 100, 114, 105, 118, 101, 58,
   97, 97, 100, 58, 118, 49, 58]

/-- `build_aad` (storage/mod.rs lines 227-232): the AAD tag followed by the
UTF-8 bytes of the logical path (paths are modelled directly as their
UTF-8 bytes). -/
def build_aad (logical_path : Bytes) : Bytes := AAD_TAG ++ logical_path

/-- Model of an XChaCha20-Poly1305 ciphertext produced by the external
`chacha20poly1305` crate: symbolic, recording the sealing parameters. -/
structure SymCiphertext where
  key : Bytes
  nonce : Bytes
  aad : Bytes
  msg : Bytes
deriving DecidableEq, Repr

/-- Model of `cipher.encrypt(nonce, Payload { msg, aad })`. -/
def aeadSeal (key nonce aad msg : Bytes) : SymCiphertext := ⟨key, nonce, aad, msg⟩

/-- Model of `cipher.decrypt(nonce, Payload { msg, aad })`: opening succeeds
exactly when key, nonce and AAD match the sealing parameters (ideal
authenticity of the AEAD). -/
def aeadOpen (key nonce aad : Bytes) (ct : SymCiphertext) :
    Except CryptoError Bytes :=
  if ct.key = key ∧ ct.nonce = nonce ∧ ct.aad = aad then .ok ct.msg
  else .error .Aead

/-- `AetherHeader` (aether_format.rs lines 16-24). -/
structure AetherHeader where
  magic : Bytes
  version : Nat
  cipher_id : Nat
  uuid : Bytes
  salt : Bytes
  commitment_hmac : Bytes
  nonce : Bytes
deriving DecidableEq, Repr

/-- `AetherFile` (aether_format.rs lines 28-31), parameterized by the type of
the ciphertext: raw bytes for the wire format, a symbolic AEAD ciphertext
for encrypt/decrypt. -/
structure AetherFile (γ : Type) where
  header : AetherHeader
  ciphertext : γ
deriving DecidableEq, Repr

/-- `StorageError` (storage/mod.rs lines 26-31, message payloads dropped). -/
inductive StorageError
  | InvalidFormat
  | Crypto (e : CryptoError)
  | Io
  | InvalidHeader
deriving DecidableEq, Repr

/-- The file key derived inline by `encrypt_file` / `decrypt_file`
(storage/mod.rs lines 80-85 and 188-193): HKDF-SHA256 with the per-file
salt, the master key as ikm, and the storage-module info constant
(the ASCII bytes of "aether-drive:file-key:v1"). -/
def storage_file_key (master_key : Bytes) (salt : Bytes) : Bytes :=
  hkdfSha256_32 (some salt) master_key FILE_KEY_INFO_V1

/-- `encrypt_file` (storage/mod.rs lines 61-137). The random uuid, salt and
nonce drawn from `OsRng` are explicit arguments. The only failure is a
master key that is not 32 bytes (the `try_into` on line 76). -/
def encrypt_file (master_key plaintext logical_path uuid salt nonce : Bytes) :
    Except StorageError (AetherFile SymCiphertext) :=
  if master_key.length = 32 then
    .ok ⟨⟨MAGIC_NUMBER, VERSION, CIPHER_ID, uuid, salt,
          sha256 ((MAGIC_NUMBER ++ [VERSION, CIPHER_ID] ++ uuid ++ salt) ++
            storage_file_key master_key salt), nonce⟩,
         aeadSeal (storage_file_key master_key salt) nonce
           (build_aad logical_path) plaintext⟩
  else .error .InvalidFormat

/-- `decrypt_file` (storage/mod.rs lines 148-224): magic, version and
cipher-id checks, file-key re-derivation from the header salt, commitment
check, then AEAD open under the AAD built from the caller-supplied path. -/
def decrypt_file (master_key : Bytes) (f : AetherFile SymCiphertext)
    (logical_path : Bytes) : Except StorageError Bytes :=
  if f.header.magic ≠ MAGIC_NUMBER then .error .InvalidFormat
  else if f.header.version ≠ VERSION then .error .InvalidFormat
  else if f.header.cipher_id ≠ CIPHER_ID then .error .InvalidFormat
  else if master_key.length = 32 then
    if sha256 ((f.header.magic ++ [f.header.version, f.header.cipher_id] ++
          f.header.uuid ++ f.header.salt) ++
          storage_file_key master_key f.header.salt) ≠
        f.header.commitment_hmac then .error .InvalidFormat
    else
      match aeadOpen (storage_file_key master_key f.header.salt) f.header.nonce
              (build_aad logical_path) f.ciphertext with
      | .ok p => .ok p
      | .error e => .error (.Crypto e)
  else .error .InvalidFormat

/-- Read a `u64` from 8 little-endian bytes (`u64::from_le_bytes`). -/
def fromLE64 (b : Bytes) : Nat :=
  b.getD 0 0 + 256 * (b.getD 1 0 + 256 * (b.getD 2 0 + 256 * (b.getD 3 0 +
    256 * (b.getD 4 0 + 256 * (b.getD 5 0 + 256 * (b.getD 6 0 +
    256 * b.getD 7 0))))))

/-- Errors of the wire format (`AetherError` in aether_format.rs). -/
inductive AetherError
  | InvalidMagic
  | UnsupportedVersion
  | UnsupportedCipher
  | InvalidHeader
  | HmacMismatch
deriving DecidableEq, Repr

/-- `AetherFile::from_bytes` (aether_format.rs lines 85-148): length check for
the 110-byte header plus the 8-byte length field, field extraction at fixed
offsets, length check for the declared ciphertext, then the ciphertext slice
(`usize` arithmetic modelled as `Nat`). -/
def AetherFile.from_bytes (data : Bytes) :
    Except AetherError (AetherFile Bytes) :=
  if data.length < 110 + 8 then .error .InvalidHeader
  else if data.length < 118 + fromLE64 ((data.drop 110).take 8) then
    .error .InvalidHeader
  else
    .ok ⟨⟨data.take 4, data.getD 4 0, data.getD 5 0, (data.drop 6).take 16,
          (data.drop 22).take 32, (data.drop 54).take 32,
          (data.drop 86).take 24⟩,
         (data.drop 118).take (fromLE64 ((data.drop 110).take 8))⟩

/-- The ciphertext length declared in bytes 110..118 of a serialized file. -/
def declared_len (data : Bytes) : Nat := fromLE64 ((data.drop 110).take 8)

/-- Whether an `Except` value is `ok`. -/
def isOkE {ε α : Type} : Except ε α → Bool
  | .ok _ => true
  | .error _ => false

instance {ε α : Type} [DecidableEq ε] [DecidableEq α] :
    DecidableEq (Except ε α) := fun x y =>
  match x, y with
  | .ok a, .ok b =>
      if h : a = b then isTrue (by rw [h])
      else isFalse (fun hc => h (Except.ok.inj hc))
  | .error e, .error f =>
      if h : e = f then isTrue (by rw [h])
      else isFalse (fun hc => h (Except.error.inj hc))
  | .ok _, .error _ => isFalse (fun hc => Except.noConfusion hc)
  | .error _, .ok _ => isFalse (fun hc => Except.noConfusion hc)

/-- The AAD determines the logical path (the domain tag is a fixed prefix
of the AAD, so equal AADs force equal paths). -/
theorem build_aad_inj {p q : Bytes} (h : build_aad p = build_aad q) : p = q :=
  List.append_cancel_left h

/-- Opening a sealed ciphertext with the sealing parameters returns the
message. -/
theorem aeadOpen_seal_same (key nonce aad msg : Bytes) :
    aeadOpen key nonce aad (aeadSeal key nonce aad msg) = .ok msg :=
  if_pos ⟨rfl, rfl, rfl⟩

/-- Opening a sealed ciphertext under a different AAD fails. -/
theorem aeadOpen_seal_other_aad (key nonce aad aad2 msg : Bytes)
    (h : aad2 ≠ aad) :
    aeadOpen key nonce aad2 (aeadSeal key nonce aad msg) = .error .Aead :=
  if_neg (fun hc => h (hc.2.2.symm))

/-- C2: the claim says `CryptoCore::derive_file_key` and the inline HKDF of
`encrypt_file`/`decrypt_file` compute the same FileKey, both with info
"aether-drive:file-key:v1". They do not: the crypto module passes info
"aether-drive:file-key" (no ":v1"), so on the master key 32 x 0x01 and the
file salt 32 x 0x02 the two derivations disagree. -/
theorem derive_file_key_ne_inline_file_key :
    derive_file_key (List.replicate 32 1) (List.replicate 32 2) ≠
      storage_file_key (List.replicate 32 1) (List.replicate 32 2) := by decide

/-- C3: decrypting with the same master key and the same logical path returns
the plaintext, for every master key of length 32, every plaintext, every
path, and every value of the uuid, salt and nonce drawn at encryption. -/
theorem encrypt_decrypt_roundtrip (mk p path uuid salt nonce : Bytes)
    (h : mk.length = 32) :
    Except.bind (encrypt_file mk p path uuid salt nonce)
      (fun f => decrypt_file mk f path) = .ok p := by
  unfold encrypt_file
  rw [if_pos h]
  simp only [Except.bind]
  unfold decrypt_file
  rw [if_neg (fun hc => hc rfl), if_neg (fun hc => hc rfl),
      if_neg (fun hc => hc rfl), if_pos h, if_neg (fun hc => hc rfl)]
  rw [aeadOpen_seal_same]

/-- Witness for C3 at a concrete input. -/
theorem encrypt_decrypt_roundtrip_witness :
    (List.replicate 32 0 : Bytes).length = 32 ∧
    Except.bind (encrypt_file (List.replicate 32 0) [1, 2, 3] [47, 97]
        (List.replicate 16 4) (List.replicate 32 5) (List.replicate 24 6))
      (fun f => decrypt_file (List.replicate 32 0) f [47, 97]) =
      .ok [1, 2, 3] :=
  ⟨by decide, encrypt_decrypt_roundtrip _ _ _ _ _ _ (by decide)⟩

/-- C4: decrypting under a different logical path fails with an AEAD error:
the AAD binds the ciphertext to the caller-supplied path. -/
theorem decrypt_wrong_path_fails (mk p path path2 uuid salt nonce : Bytes)
    (h : mk.length = 32) (hp : path2 ≠ path) :
    Except.bind (encrypt_file mk p path uuid salt nonce)
      (fun f => decrypt_file mk f path2) =
      .error (.Crypto .Aead) := by
  unfold encrypt_file
  rw [if_pos h]
  simp only [Except.bind]
  unfold decrypt_file
  rw [if_neg (fun hc => hc rfl), if_neg (fun hc => hc rfl),
      if_neg (fun hc => hc rfl), if_pos h, if_neg (fun hc => hc rfl)]
  rw [aeadOpen_seal_other_aad _ _ _ _ _ (fun hq => hp (build_aad_inj hq))]

/-- Witness for C4 at a concrete input. -/
theorem decrypt_wrong_path_fails_witness :
    (List.replicate 32 0 : Bytes).length = 32 ∧ ([47, 98] : Bytes) ≠ [47, 97] ∧
    Except.bind (encrypt_file (List.replicate 32 0) [1, 2, 3] [47, 97]
        (List.replicate 16 4) (List.replicate 32 5) (List.replicate 24 6))
      (fun f => decrypt_file (List.replicate 32 0) f [47, 98]) =
      .error (.Crypto .Aead) :=
  ⟨by decide, by decide,
   decrypt_wrong_path_fails _ _ _ _ _ _ _ (by decide) (by decide)⟩

/-- C9: `AetherFile::from_bytes` validates lengths only: it succeeds exactly
when the input holds at least 118 bytes and at least 118 plus the declared
ciphertext length (so the magic, version and cipher-id values play no role),
and on success the ciphertext is the declared-length slice at offset 118,
trailing bytes ignored, with the header fields copied unvalidated. -/
theorem from_bytes_validates_lengths_only (data : Bytes) :
    (isOkE (AetherFile.from_bytes data) = true ↔
       118 ≤ data.length ∧ 118 + declared_len data ≤ data.length) ∧
    (∀ f, AetherFile.from_bytes data = .ok f →
       f.ciphertext = (data.drop 118).take (declared_len data) ∧
       f.header.magic = data.take 4 ∧
       f.header.version = data.getD 4 0 ∧
       f.header.cipher_id = data.getD 5 0) := by
  unfold AetherFile.from_bytes declared_len
  constructor
  · by_cases h1 : data.length < 110 + 8
    · rw [if_pos h1]
      simp only [isOkE]
      constructor
      · intro hb; cases hb
      · intro hb; omega
    · rw [if_neg h1]
      by_cases h2 : data.length < 118 + fromLE64 ((data.drop 110).take 8)
      · rw [if_pos h2]
        simp only [isOkE]
        constructor
        · intro hb; cases hb
        · intro hb; omega
      · rw [if_neg h2]
        simp only [isOkE, true_iff]
        omega
  · intro f hf
    by_cases h1 : data.length < 110 + 8
    · rw [if_pos h1] at hf; cases hf
    · rw [if_neg h1] at hf
      by_cases h2 : data.length < 118 + fromLE64 ((data.drop 110).take 8)
      · rw [if_pos h2] at hf; cases hf
      · rw [if_neg h2] at hf
        cases hf
        refine ⟨?_, ?_, ?_, ?_⟩
        · rfl
        · rfl
        · rfl
        · rfl

/-! ## Merkle tree (src-tauri/src/index/merkle.rs) -/

/-- `FileMetadata` (index/mod.rs lines 11-16); the logical path is modelled
as its UTF-8 bytes. -/
structure FileMetadata where
  logical_path : Bytes
  encrypted_size : Nat
deriving DecidableEq, Repr

/-- `u64::to_le_bytes`. -/
def le64 (n : Nat) : Bytes :=
  [n % 256, n / 256 % 256, n / 2 ^ 16 % 256, n / 2 ^ 24 % 256,
   n / 2 ^ 32 % 256, n / 2 ^ 40 % 256, n / 2 ^ 48 % 256, n / 2 ^ 56 % 256]

/-- The ASCII bytes of "aether-drive:merkle:empty". -/
def MERKLE_EMPTY_TAG : Bytes :=
  [97, 101, 116, 104, 101, 114, 45, 100, 114, 105, 118, 101, 58,
   109, 101, 114, 107, 108, 101, 58, 101, 109, 112, 116, 121]

/-- The ASCII bytes of "aether-drive:merkle:entry:". -/
def MERKLE_ENTRY_TAG : Bytes :=
  [97, 101, 116, 104, 101, 114, 45, 100, 114, 105, 118, 101, 58,
   109, 101, 114, 107, 108, 101, 58, 101, 110, 116, 114, 121, 58]

/-- The ASCII bytes of "aether-drive:merkle:node:". -/
def MERKLE_NODE_TAG : Bytes :=
  [97, 101, 116, 104, 101, 114, 45, 100, 114, 105, 118, 101, 58,
   109, 101, 114, 107, 108, 101, 58, 110, 111, 100, 101, 58]

/-- Byte-lexicographic comparison, `true` when `x <= y`: the order used by
Rust's derived `Ord` on `[u8; 32]` (`leaf_hashes.sort()` in merkle.rs
line 50; equal-length arrays compare pointwise). -/
def bytesLe : Bytes → Bytes → Bool
  | [], _ => true
  | _ :: _, [] => false
  | a :: as, b :: bs =>
      if a < b then true else if b < a then false else bytesLe as bs

/-- `bytesLe` as a relation, for the sorting lemmas. -/
def leB (x y : Bytes) : Prop := bytesLe x y = true

instance : DecidableRel leB :=
  fun x y => decidable_of_iff (bytesLe x y = true) Iff.rfl

theorem bytesLe_total : ∀ x y : Bytes, bytesLe x y = true ∨ bytesLe y x = true
  | [], _ => Or.inl rfl
  | _ :: _, [] => Or.inr rfl
  | a :: as, b :: bs => by
      unfold bytesLe
      by_cases h1 : a < b
      · left; rw [if_pos h1]
      · by_cases h2 : b < a
        · right; rw [if_pos h2]
        · rw [if_neg h1, if_neg h2, if_neg h2, if_neg h1]
          exact bytesLe_total as bs

theorem bytesLe_trans : ∀ {x y z : Bytes},
    bytesLe x y = true → bytesLe y z = true → bytesLe x z = true
  | [], _, _, _, _ => rfl
  | a :: as, [], _, hxy, _ => by cases hxy
  | _ :: _, _ :: _, [], _, hyz => by cases hyz
  | a :: as, b :: bs, c :: cs, hxy, hyz => by
      unfold bytesLe at hxy hyz ⊢
      by_cases h1 : a < b
      · by_cases h2 : b < c
        · rw [if_pos (by omega : a < c)]
        · rw [if_neg h2] at hyz
          by_cases h3 : c < b
          · rw [if_pos h3] at hyz; cases hyz
          · rw [if_pos (by omega : a < c)]
      · rw [if_neg h1] at hxy
        by_cases h2 : b < a
        · rw [if_pos h2] at hxy; cases hxy
        · rw [if_neg h2] at hxy
          by_cases h3 : b < c
          · rw [if_pos (by omega : a < c)]
          · rw [if_neg h3] at hyz
            by_cases h4 : c < b
            · rw [if_pos h4] at hyz; cases hyz
            · rw [if_neg h4] at hyz
              rw [if_neg (by omega : ¬a < c), if_neg (by omega : ¬c < a)]
              exact bytesLe_trans hxy hyz

theorem bytesLe_antisymm : ∀ {x y : Bytes},
    bytesLe x y = true → bytesLe y x = true → x = y
  | [], [], _, _ => rfl
  | [], _ :: _, _, hyx => by cases hyx
  | _ :: _, [], hxy, _ => by cases hxy
  | a :: as, b :: bs, hxy, hyx => by
      unfold bytesLe at hxy hyx
      by_cases h1 : a < b
      · rw [if_neg (by omega : ¬b < a), if_pos h1] at hyx; cases hyx
      · rw [if_neg h1] at hxy
        by_cases h2 : b < a
        · rw [if_pos h2] at hxy; cases hxy
        · rw [if_neg h2] at hxy
          rw [if_neg h2, if_neg h1] at hyx
          have ha : a = b := by omega
          rw [ha, bytesLe_antisymm hxy hyx]

instance : IsTotal Bytes leB := ⟨bytesLe_total⟩

instance : IsTrans Bytes leB := ⟨fun _ _ _ => bytesLe_trans⟩

instance : IsAntisymm Bytes leB := ⟨fun _ _ => bytesLe_antisymm⟩

/-- `leaf_hashes.sort()` (merkle.rs line 50). -/
def sortHashes (l : List Bytes) : List Bytes := List.insertionSort leB l

/-- Sorting is invariant under permutation of the input. -/
theorem sortHashes_perm_eq {l1 l2 : List Bytes} (h : l1.Perm l2) :
    sortHashes l1 = sortHashes l2 :=
  List.eq_of_perm_of_sorted
    ((List.perm_insertionSort leB l1).trans
      (h.trans (List.perm_insertionSort leB l2).symm))
    (List.sorted_insertionSort leB l1) (List.sorted_insertionSort leB l2)

/-- `MerkleTree::hash_entry` (merkle.rs lines 62-71). -/
def hash_entry (id : Bytes) (meta : FileMetadata) : Bytes :=
  sha256 (MERKLE_ENTRY_TAG ++ id ++ [58] ++ meta.logical_path ++ [58] ++
    le64 meta.encrypted_size)

/-- `MerkleTree::build_tree` (merkle.rs lines 74-92), with an explicit fuel
argument (structural recursion, kernel-evaluable). The source is only ever
called on non-empty slices, and with fuel at least the list length the
fuel never runs out; the `[]` and zero-fuel results are junk values. -/
def build_tree_aux : Nat → List Bytes → Bytes
  | 0, hs => hs.headD []
  | fuel + 1, hs =>
      if hs.length ≤ 1 then hs.headD []
      else
        sha256 (MERKLE_NODE_TAG ++ build_tree_aux fuel (hs.take (hs.length / 2))
          ++ build_tree_aux fuel (hs.drop (hs.length / 2)))

/-- `MerkleTree::build_tree` on a slice of leaf hashes. -/
def build_tree (hashes : List Bytes) : Bytes :=
  build_tree_aux hashes.length hashes

/-- `MerkleTree::build(...).root_hash()` (merkle.rs lines 31-59): hash a
fixed tag for the empty map, otherwise sort the leaf hashes and build the
tree. The entries of the Rust `HashMap` are modelled as an association
list; the map's iteration order is immaterial precisely because of the
sort (the C7 theorem). -/
def merkle_build_root (entries : List (Bytes × FileMetadata)) : Bytes :=
  if entries = [] then sha256 MERKLE_EMPTY_TAG
  else build_tree (sortHashes (entries.map (fun e => hash_entry e.1 e.2)))

/-- C7: the Merkle root is independent of the order in which the entries
were inserted: any permutation of the entry list yields the same root
(leaves are sorted byte-lexicographically before the tree is built, the
recursive split is at mid = n/2, and the empty tree hashes the fixed
"aether-drive:merkle:empty" tag). -/
theorem merkle_root_insertion_order_independent
    (l1 l2 : List (Bytes × FileMetadata)) (h : l1.Perm l2) :
    merkle_build_root l1 = merkle_build_root l2 ∧
    merkle_build_root [] = sha256 MERKLE_EMPTY_TAG := by
  refine ⟨?_, rfl⟩
  unfold merkle_build_root
  by_cases h0 : l1 = []
  · subst h0
    rw [h.symm.eq_nil]
  · have h2 : l2 ≠ [] := fun he => h0 ((he ▸ h : l1.Perm []).eq_nil)
    rw [if_neg h0, if_neg h2, sortHashes_perm_eq (h.map (fun e => hash_entry e.1 e.2))]

/-- Witness for C7 at a concrete permutation. -/
theorem merkle_root_order_independent_witness :
    (([([49], ⟨[97], 1⟩), ([50], ⟨[98], 2⟩)] : List (Bytes × FileMetadata)).Perm
       [([50], ⟨[98], 2⟩), ([49], ⟨[97], 1⟩)]) ∧
    merkle_build_root [([49], ⟨[97], 1⟩), ([50], ⟨[98], 2⟩)] =
      merkle_build_root [([50], ⟨[98], 2⟩), ([49], ⟨[97], 1⟩)] :=
  ⟨List.Perm.swap _ _ _,
   (merkle_root_insertion_order_independent _ _ (List.Perm.swap _ _ _)).1⟩

/-! ## Encrypted index (src-tauri/src/index/sqlcipher.rs) -/

/-- The ASCII bytes of "aether-drive:sqlcipher-key:v1" (`DB_KEY_INFO`). -/
def DB_KEY_INFO : Bytes :=
  [97, 101, 116, 104, 101, 114, 45, 100, 114, 105, 118, 101, 58,
   115, 113, 108, 99, 105, 112, 104, 101, 114, 45, 107, 101, 121, 58, 118, 49]

/-- The ASCII bytes of "aether-drive:index-hmac-key:v1" (`HMAC_KEY_INFO`). -/
def HMAC_KEY_INFO : Bytes :=
  [97, 101, 116, 104, 101, 114, 45, 100, 114, 105, 118, 101, 58,
   105, 110, 100, 101, 120, 45, 104, 109, 97, 99, 45, 107, 101, 121,
   58, 118, 49]

/-- The SQLCipher database key: HKDF with no salt and the database info
(sqlcipher.rs lines 38-44). -/
def db_key_of (master_key : Bytes) : Bytes :=
  hkdfSha256_32 none master_key DB_KEY_INFO

/-- The row-MAC key: HKDF with no salt and the HMAC info (sqlcipher.rs
lines 164-169). -/
def hmac_key_of (master_key : Bytes) : Bytes :=
  hkdfSha256_32 none master_key HMAC_KEY_INFO

/-- The `rusqlite` error surfaced by the index (the source maps every
failure to `rusqlite::Error::InvalidQuery`). -/
inductive SqlError
  | InvalidQuery
deriving DecidableEq, Repr

/-- A row of the `file_index` table. -/
structure IndexRow where
  id : Bytes
  logical_path : Bytes
  encrypted_size : Nat
  hmac : Bytes
deriving DecidableEq, Repr

/-- A row of the trash table (spec section 4.4: FileMetadata plus a
`deleted_at` Unix timestamp). -/
structure TrashRow where
  id : Bytes
  logical_path : Bytes
  encrypted_size : Nat
  deleted_at : Nat
deriving DecidableEq, Repr

/-- The opened index: the in-memory MAC key plus the store contents
(`file_index` rows, trash rows, and the `merkle_root` entry of the
`index_metadata` table, absent before the first upsert/remove). -/
structure IndexState where
  hmac_key : Bytes
  rows : List IndexRow
  trash : List TrashRow
  merkle_root : Option Bytes
deriving DecidableEq, Repr

/-- The on-disk SQLCipher file: the key its pages are encrypted under,
plus the stored tables. -/
structure DbFile where
  cipher_key : Bytes
  rows : List IndexRow
  trash : List TrashRow
  merkle_root : Option Bytes
deriving DecidableEq, Repr

/-- `SqlCipherIndex::compute_hmac` (sqlcipher.rs lines 227-234):
SHA-256 over id, logical path, the size as 8 little-endian bytes, and the
MAC key, concatenated with no separators. -/
def compute_hmac (hmac_key id logical_path : Bytes)
    (encrypted_size : Nat) : Bytes :=
  sha256 (id ++ logical_path ++ le64 encrypted_size ++ hmac_key)

/-- Replace-or-insert a row (`INSERT OR REPLACE` keyed on `id`). -/
def upsertRow (rows : List IndexRow) (r : IndexRow) : List IndexRow :=
  rows.filter (fun q => decide (q.id ≠ r.id)) ++ [r]

/-- Sort rows as `ORDER BY logical_path` does (binary collation). -/
def sortRows (rows : List IndexRow) : List IndexRow :=
  List.insertionSort (fun r1 r2 => leB r1.logical_path r2.logical_path) rows

/-- Verify the MAC of each row in order and collect the metadata, stopping
at the first bad row (the body of the `list_all` query loop,
sqlcipher.rs lines 305-330). -/
def checkRows (key : Bytes) : List IndexRow →
    Except SqlError (List (Bytes × FileMetadata))
  | [] => .ok []
  | r :: rest =>
      if r.hmac ≠ compute_hmac key r.id r.logical_path r.encrypted_size
      then .error .InvalidQuery
      else
        match checkRows key rest with
        | .ok l => .ok ((r.id, ⟨r.logical_path, r.encrypted_size⟩) :: l)
        | .error e => .error e

namespace SqlCipherIndex

/-- `SqlCipherIndex::list_all` (sqlcipher.rs lines 301-331). -/
def list_all (st : IndexState) :
    Except SqlError (List (Bytes × FileMetadata)) :=
  checkRows st.hmac_key (sortRows st.rows)

/-- `SqlCipherIndex::get` (sqlcipher.rs lines 251-277): look the row up by
id, verify its MAC (recomputed with the queried id and the stored path and
size), and fail on mismatch. -/
def get (st : IndexState) (id : Bytes) : Except SqlError (Option FileMetadata) :=
  match st.rows.find? (fun r => decide (r.id = id)) with
  | none => .ok none
  | some r =>
      if r.hmac ≠ compute_hmac st.hmac_key id r.logical_path r.encrypted_size
      then .error .InvalidQuery
      else .ok (some ⟨r.logical_path, r.encrypted_size⟩)

/-- `SqlCipherIndex::update_merkle_root` (sqlcipher.rs lines 334-355):
re-list all rows (MACs verified), rebuild the Merkle tree over the active
rows only, and store the root under the `merkle_root` metadata key. -/
def update_merkle_root (st : IndexState) : Except SqlError IndexState :=
  match list_all st with
  | .error e => .error e
  | .ok entries => .ok { st with merkle_root := some (merkle_build_root entries) }

/-- `SqlCipherIndex::upsert` (sqlcipher.rs lines 236-249): compute the row
MAC, replace-or-insert the row, then recompute and store the Merkle root. -/
def upsert (st : IndexState) (id : Bytes) (meta : FileMetadata) :
    Except SqlError IndexState :=
  update_merkle_root { st with
    rows := upsertRow st.rows
      ⟨id, meta.logical_path, meta.encrypted_size,
       compute_hmac st.hmac_key id meta.logical_path meta.encrypted_size⟩ }

/-- `SqlCipherIndex::remove` (sqlcipher.rs lines 279-287): delete the row,
then recompute and store the Merkle root. -/
def remove (st : IndexState) (id : Bytes) : Except SqlError IndexState :=
  update_merkle_root { st with
    rows := st.rows.filter (fun r => decide (r.id ≠ id)) }

/-- `SqlCipherIndex::verify_integrity` (sqlcipher.rs lines 358-392):
rebuild the root from the current rows and compare with the stored root;
with no stored 32-byte root the index passes only when it is empty. -/
def verify_integrity (st : IndexState) : Except SqlError Bool :=
  match list_all st with
  | .error e => .error e
  | .ok entries =>
      match st.merkle_root with
      | some stored =>
          if stored.length = 32
          then .ok (decide (merkle_build_root entries = stored))
          else .ok (decide (entries = []))
      | none => .ok (decide (entries = []))

/-- `SqlCipherIndex::open` (sqlcipher.rs lines 31-172), as a transition on
the optional on-disk file. Wrong-length master keys fail. When the file
exists, the SQLCipher semantics decide the branch: with the matching
derived key the queries succeed and the store is opened as is
(`open_existing`); under any other key the probe queries fail and the
source removes the file (lines 84, 99, 107, 114) and falls through to
creating a fresh empty database with the derived key, returning it with
`Ok`. The result pairs the opened index with the resulting filesystem
state. -/
def openIndex : Option DbFile → Bytes →
    Except SqlError (IndexState × Option DbFile)
  | some f, master_key =>
      if master_key.length ≠ 32 then .error .InvalidQuery
      else if f.cipher_key = db_key_of master_key then
        .ok (⟨hmac_key_of master_key, f.rows, f.trash, f.merkle_root⟩, some f)
      else
        .ok (⟨hmac_key_of master_key, [], [], none⟩,
             some ⟨db_key_of master_key, [], [], none⟩)
  | none, master_key =>
      if master_key.length ≠ 32 then .error .InvalidQuery
      else
        .ok (⟨hmac_key_of master_key, [], [], none⟩,
             some ⟨db_key_of master_key, [], [], none⟩)

/-- Modelled from the spec: `SqlCipherIndex::move_to_trash` is not under
src/ (only its caller `storj_delete_file` in lib.rs lines 1186-1220);
spec section 4.4: move the active row for `file_id` into the trash table
with a `deleted_at` timestamp; the active set changes, so the Merkle root
is recomputed and stored. -/
def move_to_trash (st : IndexState) (id : Bytes) (deleted_at : Nat) :
    Except SqlError IndexState :=
  match st.rows.find? (fun r => decide (r.id = id)) with
  | none => .error .InvalidQuery
  | some r =>
      update_merkle_root { st with
        rows := st.rows.filter (fun q => decide (q.id ≠ id)),
        trash := st.trash ++ [⟨r.id, r.logical_path, r.encrypted_size, deleted_at⟩] }

/-- Modelled from the spec: `SqlCipherIndex::restore_from_trash` is not
under src/ (only its caller in lib.rs lines 1456-1469, which receives the
restored metadata); spec section 4.4: move the trash row back into the
active set (its MAC recomputed); the active set changes, so the Merkle
root is recomputed and stored. -/
def restore_from_trash (st : IndexState) (id : Bytes) :
    Except SqlError (FileMetadata × IndexState) :=
  match st.trash.find? (fun t => decide (t.id = id)) with
  | none => .error .InvalidQuery
  | some t =>
      match update_merkle_root { st with
        trash := st.trash.filter (fun q => decide (q.id ≠ id)),
        rows := upsertRow st.rows
          ⟨t.id, t.logical_path, t.encrypted_size,
           compute_hmac st.hmac_key t.id t.logical_path t.encrypted_size⟩ } with
      | .ok st2 => .ok (⟨t.logical_path, t.encrypted_size⟩, st2)
      | .error e => .error e

/-- Modelled from the spec: `SqlCipherIndex::list_trash` is not under src/
(only its caller in lib.rs lines 1431-1452); spec section 4.4: list the
trash rows with their deletion timestamps. -/
def list_trash (st : IndexState) :
    Except SqlError (List (Bytes × FileMetadata × Nat)) :=
  .ok (st.trash.map (fun t => (t.id, ⟨t.logical_path, t.encrypted_size⟩,
    t.deleted_at)))

/-- Modelled from the spec: `SqlCipherIndex::remove_from_trash` is not
under src/ (only its caller in lib.rs lines 1473-1512); spec section 4.4:
delete the trash row; the active set is unchanged, so the stored Merkle
root is not touched. -/
def remove_from_trash (st : IndexState) (id : Bytes) :
    Except SqlError IndexState :=
  .ok { st with trash := st.trash.filter (fun q => decide (q.id ≠ id)) }

/-- Modelled from the spec: `SqlCipherIndex::empty_trash` is not under src/
(only its caller in lib.rs lines 1518-1561); spec section 4.4: clear the
trash table and return the number of purged rows; the active set is
unchanged, so the stored Merkle root is not touched. -/
def empty_trash (st : IndexState) : Except SqlError (Nat × IndexState) :=
  .ok (st.trash.length, { st with trash := [] })

end SqlCipherIndex

/-! ## Validity invariants and supporting lemmas -/

/-- A row whose stored MAC matches the recomputation from its fields. -/
def rowValid (key : Bytes) (r : IndexRow) : Prop :=
  r.hmac = compute_hmac key r.id r.logical_path r.encrypted_size

instance (key : Bytes) (r : IndexRow) : Decidable (rowValid key r) :=
  decidable_of_iff
    (r.hmac = compute_hmac key r.id r.logical_path r.encrypted_size) Iff.rfl

/-- Every row of the store verifies (invariant I3). -/
def rowsValid (key : Bytes) (rows : List IndexRow) : Prop :=
  ∀ r ∈ rows, rowValid key r

instance (key : Bytes) (rows : List IndexRow) : Decidable (rowsValid key rows) :=
  List.decidableBAll _ rows

/-- The entry list `list_all` returns on a fully valid store. -/
def activeEntries (rows : List IndexRow) : List (Bytes × FileMetadata) :=
  (sortRows rows).map (fun r => (r.id, ⟨r.logical_path, r.encrypted_size⟩))

theorem sha256Block_length (hv block : List Nat) :
    (sha256Block hv block).length = 8 := rfl

theorem foldl_sha256Block_length (blocks : List (List Nat)) (hv : List Nat)
    (h : hv.length = 8) : (blocks.foldl sha256Block hv).length = 8 := by
  induction blocks generalizing hv with
  | nil => exact h
  | cons b bs ih => exact ih _ (sha256Block_length _ _)

theorem flatMap_wordToBytes_length (l : List Nat) :
    (l.flatMap wordToBytes).length = 4 * l.length := by
  induction l with
  | nil => rfl
  | cons a t ih =>
      simp only [List.flatMap_cons, List.length_append, List.length_cons, ih]
      simp [wordToBytes]
      ring

/-- SHA-256 always yields 32 bytes. -/
theorem sha256_length (m : Bytes) : (sha256 m).length = 32 := by
  unfold sha256
  rw [flatMap_wordToBytes_length,
      foldl_sha256Block_length (chunks64 (sha256Pad m)) sha256H0 rfl]

theorem build_tree_aux_length (fuel : Nat) (hs : List Bytes)
    (hf : hs.length ≤ fuel) (hne : hs ≠ [])
    (hlen : ∀ x ∈ hs, x.length = 32) :
    (build_tree_aux fuel hs).length = 32 := by
  cases fuel with
  | zero =>
      cases hs with
      | nil => exact absurd rfl hne
      | cons a t => simp at hf
  | succ fuel =>
      unfold build_tree_aux
      by_cases h1 : hs.length ≤ 1
      · rw [if_pos h1]
        cases hs with
        | nil => exact absurd rfl hne
        | cons a t => exact hlen a (List.mem_cons_self a t)
      · rw [if_neg h1]
        exact sha256_length _

/-- The Merkle root is always 32 bytes. -/
theorem merkle_build_root_length (entries : List (Bytes × FileMetadata)) :
    (merkle_build_root entries).length = 32 := by
  unfold merkle_build_root
  by_cases h : entries = []
  · rw [if_pos h]; exact sha256_length _
  · rw [if_neg h]
    unfold build_tree
    apply build_tree_aux_length _ _ le_rfl
    · intro hnil
      have hperm := List.perm_insertionSort leB
        (entries.map (fun e => hash_entry e.1 e.2))
      rw [show sortHashes (entries.map (fun e => hash_entry e.1 e.2)) =
            List.insertionSort leB (entries.map (fun e => hash_entry e.1 e.2))
          from rfl] at hnil
      rw [hnil] at hperm
      exact h (List.map_eq_nil_iff.mp hperm.symm.eq_nil)
    · intro x hx
      have hx2 : x ∈ entries.map (fun e => hash_entry e.1 e.2) :=
        (List.perm_insertionSort leB _).mem_iff.mp hx
      obtain ⟨e, _, rfl⟩ := List.mem_map.mp hx2
      exact sha256_length _

theorem rowsValid_sortRows {key : Bytes} {rows : List IndexRow}
    (h : rowsValid key rows) : rowsValid key (sortRows rows) :=
  fun r hr => h r ((List.perm_insertionSort _ rows).mem_iff.mp hr)

theorem rowsValid_filter {key : Bytes} {rows : List IndexRow}
    (p : IndexRow → Bool) (h : rowsValid key rows) :
    rowsValid key (rows.filter p) :=
  fun r hr => h r (List.mem_of_mem_filter hr)

theorem rowsValid_upsertRow {key : Bytes} {rows : List IndexRow} {r : IndexRow}
    (h : rowsValid key rows) (hr : rowValid key r) :
    rowsValid key (upsertRow rows r) := by
  intro q hq
  rcases List.mem_append.mp hq with hq | hq
  · exact h q (List.mem_of_mem_filter hq)
  · have := List.mem_singleton.mp hq
    subst this
    exact hr

theorem checkRows_of_valid {key : Bytes} {rows : List IndexRow}
    (h : rowsValid key rows) :
    checkRows key rows =
      .ok (rows.map (fun r => (r.id, ⟨r.logical_path, r.encrypted_size⟩))) := by
  induction rows with
  | nil => rfl
  | cons r rest ih =>
      unfold checkRows
      rw [if_neg (fun hc => hc (h r (List.mem_cons_self r rest))),
          ih (fun q hq => h q (List.mem_cons_of_mem _ hq))]
      rfl

theorem list_all_of_valid {st : IndexState}
    (h : rowsValid st.hmac_key st.rows) :
    SqlCipherIndex.list_all st = .ok (activeEntries st.rows) :=
  checkRows_of_valid (rowsValid_sortRows h)

theorem update_merkle_root_of_valid (st : IndexState)
    (h : rowsValid st.hmac_key st.rows) :
    SqlCipherIndex.update_merkle_root st =
      .ok { st with
            merkle_root := some (merkle_build_root (activeEntries st.rows)) } := by
  simp only [SqlCipherIndex.update_merkle_root, list_all_of_valid h]

theorem checkRows_error_of_bad {key : Bytes} {rows : List IndexRow}
    (r : IndexRow) (hr : r ∈ rows)
    (hbad : r.hmac ≠ compute_hmac key r.id r.logical_path r.encrypted_size) :
    checkRows key rows = .error .InvalidQuery := by
  induction rows with
  | nil => cases hr
  | cons a rest ih =>
      unfold checkRows
      by_cases ha : a.hmac ≠ compute_hmac key a.id a.logical_path a.encrypted_size
      · rw [if_pos ha]
      · rw [if_neg ha]
        rcases List.mem_cons.mp hr with rfl | hr2
        · exact absurd hbad ha
        · rw [ih hr2]

theorem find?_append_right {α : Type} (p : α → Bool) {l1 : List α}
    (l2 : List α) (h : ∀ a ∈ l1, p a = false) :
    (l1 ++ l2).find? p = l2.find? p := by
  induction l1 with
  | nil => rfl
  | cons a t ih =>
      rw [List.cons_append,
          List.find?_cons_of_neg _ (by rw [h a (List.mem_cons_self a t)]; exact Bool.false_ne_true),
          ih (fun b hb => h b (List.mem_cons_of_mem _ hb))]

/-- The state invariant maintained by every successful index operation:
all rows verify, and the stored root is either absent (with no rows yet,
as on a fresh store) or equal to the tree rebuilt over the active rows. -/
def IndexInv (st : IndexState) : Prop :=
  rowsValid st.hmac_key st.rows ∧
  (st.merkle_root = none ∧ st.rows = [] ∨
   st.merkle_root = some (merkle_build_root (activeEntries st.rows)))

/-- An upsert or remove call, the operations quantified over in P7. -/
inductive IndexOp
  | upsertOp (id : Bytes) (meta : FileMetadata)
  | removeOp (id : Bytes)
deriving DecidableEq, Repr

/-- Run one operation. -/
def applyOp (st : IndexState) : IndexOp → Except SqlError IndexState
  | .upsertOp id meta => SqlCipherIndex.upsert st id meta
  | .removeOp id => SqlCipherIndex.remove st id

/-- Run a sequence of operations, stopping at the first failure. -/
def applyOps (st : IndexState) : List IndexOp → Except SqlError IndexState
  | [] => .ok st
  | op :: rest =>
      match applyOp st op with
      | .ok st2 => applyOps st2 rest
      | .error e => .error e

/-- The in-memory state right after opening a fresh store (no rows, no
stored root yet). -/
def freshIndex (hmac_key : Bytes) : IndexState := ⟨hmac_key, [], [], none⟩

theorem freshIndex_inv (key : Bytes) : IndexInv (freshIndex key) :=
  ⟨fun r hr => absurd hr (List.not_mem_nil r), Or.inl ⟨rfl, rfl⟩⟩

theorem upsert_inv {st : IndexState} (id : Bytes) (meta : FileMetadata)
    (h : IndexInv st) :
    ∃ st2, SqlCipherIndex.upsert st id meta = .ok st2 ∧ IndexInv st2 := by
  have hv2 : rowsValid st.hmac_key
      (upsertRow st.rows
        ⟨id, meta.logical_path, meta.encrypted_size,
         compute_hmac st.hmac_key id meta.logical_path meta.encrypted_size⟩) :=
    rowsValid_upsertRow h.1 rfl
  exact ⟨_,
    update_merkle_root_of_valid
      (IndexState.mk st.hmac_key
        (upsertRow st.rows
          (IndexRow.mk id meta.logical_path meta.encrypted_size
            (compute_hmac st.hmac_key id meta.logical_path
              meta.encrypted_size)))
        st.trash st.merkle_root) hv2,
    hv2, Or.inr rfl⟩

theorem remove_inv {st : IndexState} (id : Bytes) (h : IndexInv st) :
    ∃ st2, SqlCipherIndex.remove st id = .ok st2 ∧ IndexInv st2 := by
  have hv2 : rowsValid st.hmac_key
      (st.rows.filter (fun r => decide (r.id ≠ id))) :=
    rowsValid_filter _ h.1
  exact ⟨_,
    update_merkle_root_of_valid
      (IndexState.mk st.hmac_key
        (st.rows.filter (fun r => decide (r.id ≠ id)))
        st.trash st.merkle_root) hv2,
    hv2, Or.inr rfl⟩

theorem applyOp_inv {st : IndexState} (op : IndexOp) (h : IndexInv st) :
    ∃ st2, applyOp st op = .ok st2 ∧ IndexInv st2 := by
  cases op with
  | upsertOp id meta => exact upsert_inv id meta h
  | removeOp id => exact remove_inv id h

theorem applyOps_inv : ∀ {ops : List IndexOp} {st st2 : IndexState},
    IndexInv st → applyOps st ops = .ok st2 → IndexInv st2 := by
  intro ops
  induction ops with
  | nil =>
      intro st st2 h heq
      cases heq
      exact h
  | cons op rest ih =>
      intro st st2 h heq
      obtain ⟨stm, hok, hinv⟩ := applyOp_inv op h
      rw [show applyOps st (op :: rest) =
            (match applyOp st op with
             | .ok s => applyOps s rest
             | .error e => .error e) from rfl, hok] at heq
      exact ih hinv heq

theorem verify_integrity_of_inv {st : IndexState} (h : IndexInv st) :
    SqlCipherIndex.verify_integrity st = .ok true := by
  rcases h with ⟨hv, hroot | hroot⟩
  · simp only [SqlCipherIndex.verify_integrity, list_all_of_valid hv,
      hroot.1, hroot.2]
    rfl
  · simp only [SqlCipherIndex.verify_integrity, list_all_of_valid hv, hroot]
    rw [if_pos (merkle_build_root_length _)]
    simp

/-- Witness for C9 at a concrete input: 118 zero bytes parse successfully
(wrong magic, version 0 and cipher 0 notwithstanding) with an empty
ciphertext. -/
theorem from_bytes_validates_lengths_only_witness :
    (AetherFile.from_bytes (List.replicate 118 0) = .ok
      (AetherFile.mk
        (AetherHeader.mk [0, 0, 0, 0] 0 0 (List.replicate 16 0)
          (List.replicate 32 0) (List.replicate 32 0) (List.replicate 24 0))
        [])) ∧
    isOkE (AetherFile.from_bytes (List.replicate 118 0)) = true ∧
    (AetherFile.mk
        (AetherHeader.mk [0, 0, 0, 0] 0 0 (List.replicate 16 0)
          (List.replicate 32 0) (List.replicate 32 0) (List.replicate 24 0))
        ([] : Bytes)).ciphertext =
      ((List.replicate 118 0 : Bytes).drop 118).take
        (declared_len (List.replicate 118 0)) :=
  ⟨by decide,
   (from_bytes_validates_lengths_only (List.replicate 118 0)).1.mpr
     (by decide),
   ((from_bytes_validates_lengths_only (List.replicate 118 0)).2 _
     (by decide)).1⟩

/-- C6: on a freshly opened index, after any finite sequence of successful
upsert and remove operations, `verify_integrity` returns true: the root
stored in the metadata table always equals the tree rebuilt over the
current rows. -/
theorem verify_integrity_after_ops (hmacKey : Bytes) (ops : List IndexOp)
    (st : IndexState) (h : applyOps (freshIndex hmacKey) ops = .ok st) :
    SqlCipherIndex.verify_integrity st = .ok true :=
  verify_integrity_of_inv (applyOps_inv (freshIndex_inv hmacKey) h)

/-- Witness for C6 at a concrete input. -/
theorem verify_integrity_after_ops_witness :
    applyOps (freshIndex [3]) [] = .ok (freshIndex [3]) ∧
    SqlCipherIndex.verify_integrity (freshIndex [3]) = .ok true :=
  ⟨rfl, verify_integrity_after_ops [3] [] _ rfl⟩

theorem restore_from_trash_ok (st : IndexState) (id : Bytes) (tr : TrashRow)
    (hfindtr : st.trash.find? (fun q => decide (q.id = id)) = some tr)
    (hv : rowsValid st.hmac_key
      (upsertRow st.rows
        (IndexRow.mk tr.id tr.logical_path tr.encrypted_size
          (compute_hmac st.hmac_key tr.id tr.logical_path
            tr.encrypted_size)))) :
    SqlCipherIndex.restore_from_trash st id =
      .ok (⟨tr.logical_path, tr.encrypted_size⟩,
        IndexState.mk st.hmac_key
          (upsertRow st.rows
            (IndexRow.mk tr.id tr.logical_path tr.encrypted_size
              (compute_hmac st.hmac_key tr.id tr.logical_path
                tr.encrypted_size)))
          (st.trash.filter (fun q => decide (q.id ≠ id)))
          (some (merkle_build_root (activeEntries
            (upsertRow st.rows
              (IndexRow.mk tr.id tr.logical_path tr.encrypted_size
                (compute_hmac st.hmac_key tr.id tr.logical_path
                  tr.encrypted_size))))))) := by
  have hupd := update_merkle_root_of_valid
    (IndexState.mk st.hmac_key
      (upsertRow st.rows
        (IndexRow.mk tr.id tr.logical_path tr.encrypted_size
          (compute_hmac st.hmac_key tr.id tr.logical_path
            tr.encrypted_size)))
      (st.trash.filter (fun q => decide (q.id ≠ id)))
      st.merkle_root)
    hv
  simp only [SqlCipherIndex.restore_from_trash, hfindtr, hupd]

/-- C5: the trash tier. Moving an active row to trash removes it from the
active set and records it (with its deletion time) in the trash table,
and the stored root is recomputed over the remaining active rows only
(trash rows are not counted); purging a trash row leaves both the active
set and the stored root untouched; restoring moves the row back into the
active set, out of the trash, and recomputes the stored root over the new
active set. -/
theorem trash_tier_state_machine (st : IndexState) (id : Bytes)
    (r : IndexRow) (t : Nat) (hv : rowsValid st.hmac_key st.rows)
    (hfind : st.rows.find? (fun q => decide (q.id = id)) = some r)
    (htr : ∀ q ∈ st.trash, q.id ≠ id) :
    ∃ st2,
      SqlCipherIndex.move_to_trash st id t = .ok st2 ∧
      st2.rows = st.rows.filter (fun q => decide (q.id ≠ id)) ∧
      TrashRow.mk r.id r.logical_path r.encrypted_size t ∈ st2.trash ∧
      st2.merkle_root = some (merkle_build_root (activeEntries st2.rows)) ∧
      SqlCipherIndex.remove_from_trash st2 id =
        .ok { st2 with trash := st2.trash.filter (fun q => decide (q.id ≠ id)) } ∧
      (∃ st3,
        SqlCipherIndex.restore_from_trash st2 id =
          .ok (⟨r.logical_path, r.encrypted_size⟩, st3) ∧
        st3.rows = upsertRow st2.rows
          (IndexRow.mk r.id r.logical_path r.encrypted_size
            (compute_hmac st.hmac_key r.id r.logical_path r.encrypted_size)) ∧
        st3.trash = st2.trash.filter (fun q => decide (q.id ≠ id)) ∧
        st3.merkle_root = some (merkle_build_root (activeEntries st3.rows))) := by
  have hrid : r.id = id := by
    have hp := List.find?_some hfind
    simpa using hp
  have hv2 : rowsValid st.hmac_key
      (st.rows.filter (fun q => decide (q.id ≠ id))) := rowsValid_filter _ hv
  have hmove :
      SqlCipherIndex.move_to_trash st id t =
        .ok (IndexState.mk st.hmac_key
          (st.rows.filter (fun q => decide (q.id ≠ id)))
          (st.trash ++ [TrashRow.mk r.id r.logical_path r.encrypted_size t])
          (some (merkle_build_root (activeEntries
            (st.rows.filter (fun q => decide (q.id ≠ id))))))) := by
    simp only [SqlCipherIndex.move_to_trash, hfind]
    exact update_merkle_root_of_valid
      (IndexState.mk st.hmac_key
        (st.rows.filter (fun q => decide (q.id ≠ id)))
        (st.trash ++ [TrashRow.mk r.id r.logical_path r.encrypted_size t])
        st.merkle_root) hv2
  have hfindtr :
      (st.trash ++
        [TrashRow.mk r.id r.logical_path r.encrypted_size t]).find?
          (fun q => decide (q.id = id)) =
        some (TrashRow.mk r.id r.logical_path r.encrypted_size t) := by
    rw [find?_append_right _ _ (fun a ha => decide_eq_false (htr a ha))]
    exact List.find?_cons_of_pos _ (decide_eq_true hrid)
  have hv3 : rowsValid st.hmac_key
      (upsertRow (st.rows.filter (fun q => decide (q.id ≠ id)))
        (IndexRow.mk r.id r.logical_path r.encrypted_size
          (compute_hmac st.hmac_key r.id r.logical_path r.encrypted_size))) :=
    rowsValid_upsertRow hv2 rfl
  refine ⟨_, hmove, ?_, ?_, ?_, ?_, ?_⟩
  · rfl
  · exact List.mem_append.mpr (Or.inr (List.mem_singleton.mpr rfl))
  · rfl
  · rfl
  · refine ⟨_, restore_from_trash_ok
        (IndexState.mk st.hmac_key
          (st.rows.filter (fun q => decide (q.id ≠ id)))
          (st.trash ++ [TrashRow.mk r.id r.logical_path r.encrypted_size t])
          (some (merkle_build_root (activeEntries
            (st.rows.filter (fun q => decide (q.id ≠ id)))))))
        id (TrashRow.mk r.id r.logical_path r.encrypted_size t)
        hfindtr hv3, ?_, ?_, ?_⟩
    · rfl
    · rfl
    · rfl

/-- Witness for C5 at a concrete input. -/
theorem trash_tier_state_machine_witness :
    rowsValid ([] : Bytes)
      [IndexRow.mk [1] [2] 3 (compute_hmac [] [1] [2] 3)] ∧
    ([IndexRow.mk [1] [2] 3 (compute_hmac [] [1] [2] 3)].find?
      (fun q => decide (q.id = [1])) =
      some (IndexRow.mk [1] [2] 3 (compute_hmac [] [1] [2] 3))) ∧
    (∃ st2,
      SqlCipherIndex.move_to_trash
        (IndexState.mk []
          [IndexRow.mk [1] [2] 3 (compute_hmac [] [1] [2] 3)] [] none)
        [1] 99 = .ok st2 ∧
      st2.rows = [IndexRow.mk [1] [2] 3
        (compute_hmac [] [1] [2] 3)].filter (fun q => decide (q.id ≠ [1])) ∧
      TrashRow.mk [1] [2] 3 99 ∈ st2.trash ∧
      st2.merkle_root = some (merkle_build_root (activeEntries st2.rows)) ∧
      SqlCipherIndex.remove_from_trash st2 [1] =
        .ok { st2 with
              trash := st2.trash.filter (fun q => decide (q.id ≠ [1])) } ∧
      (∃ st3,
        SqlCipherIndex.restore_from_trash st2 [1] = .ok (⟨[2], 3⟩, st3) ∧
        st3.rows = upsertRow st2.rows
          (IndexRow.mk [1] [2] 3 (compute_hmac [] [1] [2] 3)) ∧
        st3.trash = st2.trash.filter (fun q => decide (q.id ≠ [1])) ∧
        st3.merkle_root =
          some (merkle_build_root (activeEntries st3.rows)))) :=
  ⟨by decide, by decide,
   trash_tier_state_machine
     (IndexState.mk []
       [IndexRow.mk [1] [2] 3 (compute_hmac [] [1] [2] 3)] [] none)
     [1] (IndexRow.mk [1] [2] 3 (compute_hmac [] [1] [2] 3)) 99
     (by decide) (by decide) (by decide)⟩

/-- C8 (amended): whenever the MAC recomputed over a stored row's fields
differs from the stored MAC — in particular after any modification of a
single field — `get` rejects the row and `list_all` fails. -/
theorem row_mac_mismatch_rejected (st : IndexState) (id : Bytes)
    (r : IndexRow)
    (hfind : st.rows.find? (fun q => decide (q.id = id)) = some r)
    (hbad : r.hmac ≠
      compute_hmac st.hmac_key id r.logical_path r.encrypted_size) :
    SqlCipherIndex.get st id = .error .InvalidQuery ∧
    SqlCipherIndex.list_all st = .error .InvalidQuery := by
  have hrid : r.id = id := by
    have hp := List.find?_some hfind
    simpa using hp
  constructor
  · simp only [SqlCipherIndex.get, hfind]
    rw [if_pos hbad]
  · exact checkRows_error_of_bad r
      ((List.perm_insertionSort _ st.rows).symm.mem_iff.mp
        (List.mem_of_find?_eq_some hfind))
      (by rw [hrid]; exact hbad)

/-- Witness for the amended C8 at a concrete input: the stored path was
changed from [47, 97] to [47, 98] without recomputing the MAC, and both
reads fail. -/
theorem row_mac_mismatch_rejected_witness :
    ([IndexRow.mk [102] [47, 98] 7 (compute_hmac [] [102] [47, 97] 7)].find?
      (fun q => decide (q.id = [102])) =
      some (IndexRow.mk [102] [47, 98] 7 (compute_hmac [] [102] [47, 97] 7))) ∧
    (IndexRow.mk [102] [47, 98] 7
      (compute_hmac [] [102] [47, 97] 7)).hmac ≠
      compute_hmac [] [102] [47, 98] 7 ∧
    SqlCipherIndex.get
      (IndexState.mk []
        [IndexRow.mk [102] [47, 98] 7 (compute_hmac [] [102] [47, 97] 7)]
        [] none) [102] = .error .InvalidQuery ∧
    SqlCipherIndex.list_all
      (IndexState.mk []
        [IndexRow.mk [102] [47, 98] 7 (compute_hmac [] [102] [47, 97] 7)]
        [] none) = .error .InvalidQuery :=
  ⟨by decide, by decide,
   row_mac_mismatch_rejected
     (IndexState.mk []
       [IndexRow.mk [102] [47, 98] 7 (compute_hmac [] [102] [47, 97] 7)]
       [] none)
     [102] (IndexRow.mk [102] [47, 98] 7 (compute_hmac [] [102] [47, 97] 7))
     (by decide) (by decide)⟩

/-- C8 counterexample: the claim as stated is false. A row written by
`upsert` as (id = [97, 98], path = [47, 120], size = 5) keeps its stored
MAC; rewriting the stored id and path to ([97], [98, 47, 120]) — moving
the trailing byte of the id onto the front of the path — changes the
stored `logical_path` (and `file_id`) without recomputing `row_mac`, yet
`get` and `list_all` accept the modified row and return the modified
metadata instead of an error. -/
theorem modified_row_accepted :
    ((([97] : Bytes), ([98, 47, 120] : Bytes)) ≠
      (([97, 98] : Bytes), ([47, 120] : Bytes))) ∧
    SqlCipherIndex.get
      (IndexState.mk (List.replicate 32 7)
        [IndexRow.mk [97] [98, 47, 120] 5
          (compute_hmac (List.replicate 32 7) [97, 98] [47, 120] 5)]
        [] none) [97] = .ok (some ⟨[98, 47, 120], 5⟩) ∧
    SqlCipherIndex.list_all
      (IndexState.mk (List.replicate 32 7)
        [IndexRow.mk [97] [98, 47, 120] 5
          (compute_hmac (List.replicate 32 7) [97, 98] [47, 120] 5)]
        [] none) = .ok [([97], ⟨[98, 47, 120], 5⟩)] := by
  refine ⟨by decide, ?_, ?_⟩ <;> decide

/-- C10: because the row MAC concatenates id and path with no separator,
the distinct pairs ("ab", "c") and ("a", "bc") produce the same MAC input
bytes — hence the same MAC — under every key and size. -/
theorem compute_hmac_no_separator_collision :
    (∀ (key : Bytes) (size : Nat),
      compute_hmac key [97, 98] [99] size =
        compute_hmac key [97] [98, 99] size) ∧
    ((([97, 98] : Bytes), ([99] : Bytes)) ≠
      (([97] : Bytes), ([98, 99] : Bytes))) :=
  ⟨fun _ _ => rfl, by decide⟩

/-- C1: opening an existing index file with a master key whose derived
database key does not unlock it does not fail with a wrong-key error and
does not leave the file alone: the source deletes the file and recreates
a fresh empty database under the newly derived key, returning it with
`Ok`. -/
theorem open_wrong_key_recreates_store (f : DbFile) (mk : Bytes)
    (hlen : mk.length = 32) (hkey : f.cipher_key ≠ db_key_of mk) :
    SqlCipherIndex.openIndex (some f) mk =
      .ok (IndexState.mk (hmac_key_of mk) [] [] none,
           some (DbFile.mk (db_key_of mk) [] [] none)) := by
  simp only [SqlCipherIndex.openIndex]
  rw [if_neg (fun hc => hc hlen)]
  rw [if_neg hkey]

/-- Witness for C1 at a concrete input: a non-empty store encrypted under
a different key is destroyed and replaced by an empty one. -/
theorem open_wrong_key_recreates_store_witness :
    (List.replicate 32 9 : Bytes).length = 32 ∧
    (DbFile.mk [0] [IndexRow.mk [1] [2] 3 [4]] [] none).cipher_key ≠
      db_key_of (List.replicate 32 9) ∧
    SqlCipherIndex.openIndex
      (some (DbFile.mk [0] [IndexRow.mk [1] [2] 3 [4]] [] none))
      (List.replicate 32 9) =
      .ok (IndexState.mk (hmac_key_of (List.replicate 32 9)) [] [] none,
           some (DbFile.mk (db_key_of (List.replicate 32 9)) [] [] none)) :=
  ⟨by decide, by decide,
   open_wrong_key_recreates_store _ _ (by decide) (by decide)⟩

end AetherDrive
